import Mathlib

/-!
Verification of the actor-critic training core of `main.py` (function `train`,
the on-policy rollout / GAE / loss pipeline of the odmc-wrsn repository).

Modelling conventions, all translated from `src/main.py`:

* Machine floats are modelled as exact rationals `ℚ`.  The transcendental
  functions `exp` and `log` used by `softmax` / `log_softmax` / `mask.log()`
  are threaded as explicit function parameters (`ℚ → ℚ`); every theorem below
  is independent of their interpretation except where a property of the real
  functions (such as `log 1 = 0`) is taken as an explicit hypothesis.
* `tensor.detach()` is numerically the identity; gradients are outside the
  model, so `detach` is dropped.
* The environment `WRSNEnv` (file `environment.py`, not part of the given
  source) is visible to `train` only through `reset/step/close` and the two
  metric getters.  Line 116 of `main.py` (`reward = rewards[i][0]  # using
  time only`) subscripts the reward returned by `env.step`, so the reward is
  modelled as a list of rational components, `List ℚ`, and the subscript
  `[0]` as `List.headI`.  The spec instead declares `reward : float`.
* The external actor, critic, the action-selection outcome (which involves
  RNG sampling in training mode) and the environment step are abstracted as
  functions of the step index, since the observation evolves deterministically
  with the step along a single rollout.
-/

namespace ODMC

/-- The backward loop of `train` (`main.py` lines 111–128), translated from
the source.  Arguments mirror the Python locals: `gamma`, `lam` (= the config
`gae_lambda`), `c` (= `entropy_coef`), the reward list, the value list
(already containing the appended bootstrap value as its last element, as
after line 109), log-probabilities and entropies.  The loop runs `i` from
`len(rewards)-1` down to `0`; structurally this is recursion that processes
the tail (higher indices) first.  Returns the final accumulators `R` and
`gae` (their values after the `i = 0` iteration) together with the
`policy_losses` and `value_losses` arrays.  In the source the initial `R`
equals `values[-1]` (both are the bootstrap, lines 104–109), which is what
the base case reads off via `headI` after the values list has been consumed
down to its last element. -/
def gaeRec (gamma lam c : ℚ) :
    List (List ℚ) → List ℚ → List ℚ → List ℚ → ℚ × ℚ × List ℚ × List ℚ
  | [], values, _, _ => (values.headI, 0, [], [])
  | r :: rs, values, lp :: lps, e :: es =>
    let rest := gaeRec gamma lam c rs values.tail lps es
    let reward := r.headI
    let Rnew := gamma * rest.1 + reward
    let advantage := Rnew - values.headI
    let vl := (1 / 2 : ℚ) * advantage ^ 2
    let delta := reward + gamma * values.tail.headI - values.headI
    let gaeNew := rest.2.1 * gamma * lam + delta
    let pl := -lp * gaeNew - c * e
    (Rnew, gaeNew, pl :: rest.2.2.1, vl :: rest.2.2.2)
  | _ :: _, _, [], _ => (0, 0, [], [])
  | _ :: _, _, _ :: _, [] => (0, 0, [], [])

/-- Lines 104–128 of `main.py`: the bootstrap (`R = 0` on natural
termination, otherwise the detached fresh critic value `bv` of the final
observation), the append `values.append(R)` of line 109, and the backward
loop.  `values` here is the rollout-collected list (length `T`). -/
def computeLosses (gamma lam c : ℚ) (done : Bool) (bv : ℚ)
    (values : List ℚ) (rewards : List (List ℚ))
    (logProbs entropies : List ℚ) : ℚ × ℚ × List ℚ × List ℚ :=
  gaeRec gamma lam c rewards (values ++ [if done then 0 else bv])
    logProbs entropies

/-- Spec-side definition, following the spec's words: the return recurrence
`R_i = reward[i] + gamma * R_{i+1}` with `R_T` the given terminal value;
`specR gamma RT l` is `R_i` when `l` is the list of scalar rewards from
index `i` on. -/
def specR (gamma RT : ℚ) : List ℚ → ℚ
  | [] => RT
  | r :: rs => r + gamma * specR gamma RT rs

/-- Spec-side definition, following the spec's words: the GAE recurrence
`gae_i = gamma * gae_lambda * gae_{i+1} + delta_i` with `gae_T = 0` and
`delta_i = reward[i] + gamma * value[i+1] - value[i]`; `specGae gamma lam l
vs` is `gae_i` when `l` is the scalar-reward list from index `i` on and `vs`
the value list from index `i` on (so `vs` has one more element than `l`). -/
def specGae (gamma lam : ℚ) : List ℚ → List ℚ → ℚ
  | [], _ => 0
  | r :: rs, vs =>
    gamma * lam * specGae gamma lam rs vs.tail +
      (r + gamma * vs.tail.headI - vs.headI)

/-- Spec-side definition: the per-step value losses
`value_loss[i] = 0.5 * (R_i - value[i])^2`. -/
def specVLs (gamma RT : ℚ) : List ℚ → List ℚ → List ℚ
  | [], _ => []
  | r :: rs, vs =>
    (1 / 2 : ℚ) * (specR gamma RT (r :: rs) - vs.headI) ^ 2 ::
      specVLs gamma RT rs vs.tail

/-- Spec-side definition: the per-step policy losses
`policy_loss[i] = -log_prob[i] * gae_i - entropy_coef * entropy[i]`. -/
def specPLs (gamma lam c : ℚ) : List ℚ → List ℚ → List ℚ → List ℚ → List ℚ
  | r :: rs, vs, lp :: lps, e :: es =>
    (-lp * specGae gamma lam (r :: rs) vs - c * e) ::
      specPLs gamma lam c rs vs.tail lps es
  | _, _, _, _ => []

/-- Last element of a list with a default for the empty list (a local helper
used to name `values[-1]` in statements). -/
def lastD {α : Type} : List α → α → α
  | [], d => d
  | [a], _ => a
  | _ :: b :: l, d => lastD (b :: l) d

lemma lastD_cons_of_ne_nil {α : Type} (v d : α) :
    ∀ (vs : List α), vs ≠ [] → lastD (v :: vs) d = lastD vs d
  | [], h => absurd rfl h
  | _ :: _, _ => rfl

lemma lastD_append_single {α : Type} :
    ∀ (l : List α) (a d : α), lastD (l ++ [a]) d = a
  | [], _, _ => rfl
  | x :: xs, a, d => by
    rw [List.cons_append,
      lastD_cons_of_ne_nil x d (xs ++ [a]) (by simp)]
    exact lastD_append_single xs a d

/-- Observable environment operations invoked by `train` during one training
example: `env.step`, `env.close`, `env.get_network_lifetime`,
`env.get_travel_distance`. -/
inductive Ev where
  | stepCall
  | closeCall
  | lifetimeCall
  | travelDistCall
deriving DecidableEq, Repr

/-- The external collaborators of the rollout (actor, critic, action
selection, environment), abstracted as functions of the step index `t`,
since along one rollout the observation fed to the models is a function of
`t`.  `select` covers both the stochastic (Categorical sampling, training
mode) and the greedy branch: it returns the chosen action and the recorded
log-probability given the probability vector.  `envStep t a` is the
`(reward, done)` part of `env.step(a)` at step `t`; the reward is the list
of its components (`main.py` line 116 subscripts it).  `exp`/`log` model the
real transcendental functions used by softmax and `mask.log()`. -/
structure RolloutCtx where
  nActions : Nat
  fexp : ℚ → ℚ
  flog : ℚ → ℚ
  actorLogits : Nat → List ℚ
  criticValue : Nat → ℚ
  select : Nat → List ℚ → Nat × ℚ
  envStep : Nat → Nat → List ℚ × Bool

/-- Line 62: `logit + mask.log()`. -/
def maskedLogit (flog : ℚ → ℚ) (logit mask : List ℚ) : List ℚ :=
  List.zipWith (· + ·) logit (mask.map flog)

/-- Line 65: `F.softmax(logit, dim=-1)`, i.e. `exp x / Σ exp`. -/
def softmaxQ (fexp : ℚ → ℚ) (l : List ℚ) : List ℚ :=
  l.map (fun x => fexp x / (l.map fexp).sum)

/-- Line 66: `F.log_softmax(logit, dim=-1)`, i.e. `x - log (Σ exp)`. -/
def logSoftmaxQ (fexp flog : ℚ → ℚ) (l : List ℚ) : List ℚ :=
  l.map (fun x => x - flog ((l.map fexp).sum))

/-- Line 67: `entropy = -(log_prob * prob).sum(...)`. -/
def entropyQ (fexp flog : ℚ → ℚ) (l : List ℚ) : ℚ :=
  -(List.zipWith (· * ·) (logSoftmaxQ fexp flog l) (softmaxQ fexp l)).sum

/-- The Python locals of one rollout (`main.py` lines 50–99): the four
trajectory lists, the `mask` tensor, the `done` local (`none` while not yet
assigned, which matters when `max_step = 0`), and the trace of environment
operations performed so far. -/
structure LoopState where
  values : List ℚ
  rewards : List (List ℚ)
  logProbs : List ℚ
  entropies : List ℚ
  mask : List ℚ
  doneVar : Option Bool
  events : List Ev

/-- The rollout loop `for _ in range(dp.max_step)` (lines 57–99), with
`fuel` the remaining iterations and `t` the current step index.  Each
iteration masks the logits, forms the distribution quantities, queries the
critic, selects an action, steps the environment, appends one record to each
trajectory list, and on `done` closes the environment and breaks.  The two
mask-mutation lines 85 and 87 are commented out in the source, so the mask
is never written. -/
def rolloutLoop (ctx : RolloutCtx) : Nat → Nat → LoopState → LoopState
  | 0, _, st => st
  | fuel + 1, t, st =>
    let ml := maskedLogit ctx.flog (ctx.actorLogits t) st.mask
    let ent := entropyQ ctx.fexp ctx.flog ml
    let v := ctx.criticValue t
    let sel := ctx.select t (softmaxQ ctx.fexp ml)
    let out := ctx.envStep t sel.1
    let st' : LoopState :=
      { st with
        values := st.values ++ [v]
        rewards := st.rewards ++ [out.1]
        logProbs := st.logProbs ++ [sel.2]
        entropies := st.entropies ++ [ent]
        doneVar := some out.2
        events := st.events ++ [Ev.stepCall] }
    if out.2 then { st' with events := st'.events ++ [Ev.closeCall] }
    else rolloutLoop ctx fuel (t + 1) st'

/-- Lines 50–55: empty trajectory lists and
`mask = torch.ones(env.action_space.n)`. -/
def initState (ctx : RolloutCtx) : LoopState :=
  ⟨[], [], [], [], List.replicate ctx.nActions 1, none, []⟩

/-- One full episode rollout (lines 50–99). -/
def rollout (ctx : RolloutCtx) (maxStep : Nat) : LoopState :=
  rolloutLoop ctx maxStep 0 (initState ctx)

/-- The environment-operation trace of one training example: the rollout's
trace followed by the two metric reads of lines 101–102. -/
def exampleEvents (ctx : RolloutCtx) (maxStep : Nat) : List Ev :=
  (rollout ctx maxStep).events ++ [Ev.lifetimeCall, Ev.travelDistCall]

/-- The only failure mode of the per-example code that the embedding keeps:
reading the Python local `done` at line 105 before any loop iteration has
assigned it (a `NameError` when `max_step = 0`). -/
inductive TrainErr where
  | unboundLocalDone
deriving DecidableEq, Repr

/-- One training example's loss computation (lines 50–128 without the
optimizer steps): rollout, then — reading the `done` local — bootstrap with
a fresh critic forward pass on the final observation (whose step index is
the number of steps taken) when not done, and the backward GAE loop. -/
def trainStepResult (ctx : RolloutCtx) (maxStep : Nat) (gamma lam c : ℚ) :
    Except TrainErr (ℚ × ℚ × List ℚ × List ℚ) :=
  let st := rollout ctx maxStep
  match st.doneVar with
  | none => .error .unboundLocalDone
  | some d =>
    .ok (computeLosses gamma lam c d (ctx.criticValue st.rewards.length)
      st.values st.rewards st.logProbs st.entropies)

/-- Whether an `Except` result is a success. -/
def resultOk {ε α : Type} : Except ε α → Bool
  | .ok _ => true
  | .error _ => false

/-- The probability vector formed at step `t` (lines 61–65), given that the
mask still holds its initial all-ones value. -/
def probsAt (ctx : RolloutCtx) (t : Nat) : List ℚ :=
  softmaxQ ctx.fexp
    (maskedLogit ctx.flog (ctx.actorLogits t) (List.replicate ctx.nActions 1))

/-- The action handed to `env.step` at step `t`. -/
def actionAt (ctx : RolloutCtx) (t : Nat) : Nat :=
  (ctx.select t (probsAt ctx t)).1

/-- The environment-returned reward objects along the rollout path, exactly
as `env.step` produces them, starting at step `t` with `fuel` iterations
left. -/
def pathRewards (ctx : RolloutCtx) : Nat → Nat → List (List ℚ)
  | 0, _ => []
  | fuel + 1, t =>
    let out := ctx.envStep t (actionAt ctx t)
    if out.2 then [out.1] else out.1 :: pathRewards ctx fuel (t + 1)

/-- The backward loop computes exactly the spec recurrences: final `R`,
final `gae`, and the two loss arrays, where the scalar reward consumed at
step `i` is `rewards[i][0]` (`List.headI`) and `R_T` is the last element of
the (bootstrap-extended) value list. -/
lemma gaeRec_eq (gamma lam c : ℚ) :
    ∀ (rws : List (List ℚ)) (vls lps es : List ℚ),
    rws.length = lps.length → rws.length = es.length →
    vls.length = rws.length + 1 →
    gaeRec gamma lam c rws vls lps es =
      (specR gamma (lastD vls 0) (rws.map List.headI),
       specGae gamma lam (rws.map List.headI) vls,
       specPLs gamma lam c (rws.map List.headI) vls lps es,
       specVLs gamma (lastD vls 0) (rws.map List.headI) vls)
  | [], vls, lps, es, h1, h2, h3 => by
    obtain ⟨v, rfl⟩ : ∃ v, vls = [v] := by
      cases vls with
      | nil => simp at h3
      | cons v vs => cases vs with
        | nil => exact ⟨v, rfl⟩
        | cons _ _ => simp at h3
    cases lps with
    | nil =>
      cases es with
      | nil => simp [gaeRec, specR, specGae, specPLs, specVLs, lastD]
      | cons _ _ => simp at h2
    | cons _ _ => simp at h1
  | r :: rs, vls, lps, es, h1, h2, h3 => by
    obtain ⟨lp, lps', rfl⟩ : ∃ lp lps', lps = lp :: lps' := by
      cases lps with
      | nil => simp at h1
      | cons a b => exact ⟨a, b, rfl⟩
    obtain ⟨e, es', rfl⟩ : ∃ e es', es = e :: es' := by
      cases es with
      | nil => simp at h2
      | cons a b => exact ⟨a, b, rfl⟩
    obtain ⟨v, vs, rfl⟩ : ∃ v vs, vls = v :: vs := by
      cases vls with
      | nil => simp at h3
      | cons a b => exact ⟨a, b, rfl⟩
    have hvs : vs ≠ [] := by
      intro h; rw [h] at h3; simp at h3
    have hlast : lastD (v :: vs) 0 = lastD vs 0 :=
      lastD_cons_of_ne_nil v 0 vs hvs
    have ih := gaeRec_eq gamma lam c rs vs lps' es'
      (by simpa using h1) (by simpa using h2) (by simpa using h3)
    simp only [gaeRec, List.tail_cons, ih, List.map_cons, specR, specGae,
      specPLs, specVLs, List.headI, hlast, Prod.mk.injEq, List.cons.injEq]
    refine ⟨by ring, by ring, ⟨by ring, trivial⟩, by ring, trivial⟩

/-- The loop never writes the mask (lines 85 and 87 are commented out). -/
lemma rolloutLoop_mask (ctx : RolloutCtx) :
    ∀ (fuel t : Nat) (st : LoopState),
      (rolloutLoop ctx fuel t st).mask = st.mask
  | 0, _, _ => rfl
  | fuel + 1, t, st => by
    simp only [rolloutLoop]
    split
    · rfl
    · exact rolloutLoop_mask ctx fuel (t + 1) _

/-- Each iteration appends exactly one record to each trajectory list, so
the equal-length invariant of the four lists is preserved. -/
lemma rolloutLoop_lens (ctx : RolloutCtx) :
    ∀ (fuel t : Nat) (st : LoopState),
      st.values.length = st.rewards.length →
      st.logProbs.length = st.rewards.length →
      st.entropies.length = st.rewards.length →
      (rolloutLoop ctx fuel t st).values.length
          = (rolloutLoop ctx fuel t st).rewards.length ∧
      (rolloutLoop ctx fuel t st).logProbs.length
          = (rolloutLoop ctx fuel t st).rewards.length ∧
      (rolloutLoop ctx fuel t st).entropies.length
          = (rolloutLoop ctx fuel t st).rewards.length
  | 0, _, _, h1, h2, h3 => ⟨h1, h2, h3⟩
  | fuel + 1, t, st, h1, h2, h3 => by
    simp only [rolloutLoop]
    split
    · simp [h1, h2, h3]
    · exact rolloutLoop_lens ctx fuel (t + 1) _
        (by simp [h1]) (by simp [h2]) (by simp [h3])

/-- The loop appends at most `fuel` rewards. -/
lemma rolloutLoop_rewards_le (ctx : RolloutCtx) :
    ∀ (fuel t : Nat) (st : LoopState),
      (rolloutLoop ctx fuel t st).rewards.length ≤ st.rewards.length + fuel
  | 0, _, _ => Nat.le_refl _
  | fuel + 1, t, st => by
    simp only [rolloutLoop]
    split
    · simp
    · refine le_trans (rolloutLoop_rewards_le ctx fuel (t + 1) _) ?_
      simp
      omega

/-- If the environment never reports `done`, the loop uses all its fuel and
appends exactly `fuel` rewards. -/
lemma rolloutLoop_rewards_eq (ctx : RolloutCtx)
    (h : ∀ t a, (ctx.envStep t a).2 = false) :
    ∀ (fuel t : Nat) (st : LoopState),
      (rolloutLoop ctx fuel t st).rewards.length = st.rewards.length + fuel
  | 0, _, _ => rfl
  | fuel + 1, t, st => by
    simp only [rolloutLoop, h, Bool.false_eq_true, if_false]
    rw [rolloutLoop_rewards_eq ctx h fuel (t + 1)]
    simp
    omega

/-- Fact: `env.close()` is called exactly once if the loop ends with `done` true
(natural termination) and never otherwise. -/
lemma rolloutLoop_close_count (ctx : RolloutCtx) :
    ∀ (fuel t : Nat) (st : LoopState), st.doneVar ≠ some true →
      (rolloutLoop ctx fuel t st).events.count Ev.closeCall
        = st.events.count Ev.closeCall
          + (if (rolloutLoop ctx fuel t st).doneVar = some true then 1 else 0)
  | 0, _, st, h => by simp [rolloutLoop, h]
  | fuel + 1, t, st, h => by
    simp only [rolloutLoop]
    split
    · next hdone =>
      simp [List.count_append, hdone]
    · next hdone =>
      rw [rolloutLoop_close_count ctx fuel (t + 1) _ (by simp [hdone])]
      simp [List.count_append]

/-- The loop emits only `step`/`close` events: any other event count is
unchanged. -/
lemma rolloutLoop_other_count (ctx : RolloutCtx) (e : Ev)
    (h1 : e ≠ Ev.stepCall) (h2 : e ≠ Ev.closeCall) :
    ∀ (fuel t : Nat) (st : LoopState),
      (rolloutLoop ctx fuel t st).events.count e = st.events.count e
  | 0, _, _ => rfl
  | fuel + 1, t, st => by
    simp only [rolloutLoop]
    split
    · simp [List.count_append, List.count_cons, h1, h2]
    · rw [rolloutLoop_other_count ctx e h1 h2 fuel (t + 1)]
      simp [List.count_append, List.count_cons, h1]

/-- Once the `done` local has been assigned it stays assigned. -/
lemma rolloutLoop_done_isSome (ctx : RolloutCtx) :
    ∀ (fuel t : Nat) (st : LoopState), st.doneVar.isSome →
      (rolloutLoop ctx fuel t st).doneVar.isSome
  | 0, _, _, h => h
  | fuel + 1, t, st, _ => by
    simp only [rolloutLoop]
    split
    · rfl
    · exact rolloutLoop_done_isSome ctx fuel (t + 1) _ rfl

/-- After at least one iteration, the `done` local is assigned. -/
lemma rolloutLoop_done_isSome_of_pos (ctx : RolloutCtx) :
    ∀ (fuel t : Nat) (st : LoopState), 1 ≤ fuel →
      (rolloutLoop ctx fuel t st).doneVar.isSome
  | fuel + 1, t, st, _ => by
    simp only [rolloutLoop]
    split
    · rfl
    · exact rolloutLoop_done_isSome ctx fuel (t + 1) _ rfl

/-- While the mask holds its initial all-ones value, the rewards appended by
the loop are exactly the objects returned by `env.step` along the path. -/
lemma rolloutLoop_pathRewards (ctx : RolloutCtx) :
    ∀ (fuel t : Nat) (st : LoopState),
      st.mask = List.replicate ctx.nActions 1 →
      (rolloutLoop ctx fuel t st).rewards = st.rewards ++ pathRewards ctx fuel t
  | 0, _, _, _ => by simp [pathRewards, rolloutLoop]
  | fuel + 1, t, st, hm => by
    simp only [rolloutLoop, pathRewards, hm]
    have hact : (ctx.select t (softmaxQ ctx.fexp (maskedLogit ctx.flog
        (ctx.actorLogits t) (List.replicate ctx.nActions 1)))).1
        = actionAt ctx t := rfl
    rw [hact]
    split
    · next hdone => simp [hdone]
    · next hdone =>
      rw [rolloutLoop_pathRewards ctx fuel (t + 1) _ (by simp [hm])]
      simp [hdone]

/-- The backward loop emits one policy-loss and one value-loss entry per
reward. -/
lemma gaeRec_len (gamma lam c : ℚ) :
    ∀ (rws : List (List ℚ)) (vls lps es : List ℚ),
      rws.length = lps.length → rws.length = es.length →
      (gaeRec gamma lam c rws vls lps es).2.2.1.length = rws.length ∧
      (gaeRec gamma lam c rws vls lps es).2.2.2.length = rws.length
  | [], vls, lps, es, _, _ => by simp [gaeRec]
  | r :: rs, vls, lps, es, h1, h2 => by
    obtain ⟨lp, lps', rfl⟩ : ∃ lp lps', lps = lp :: lps' := by
      cases lps with
      | nil => simp at h1
      | cons a b => exact ⟨a, b, rfl⟩
    obtain ⟨e, es', rfl⟩ : ∃ e es', es = e :: es' := by
      cases es with
      | nil => simp at h2
      | cons a b => exact ⟨a, b, rfl⟩
    have ih := gaeRec_len gamma lam c rs vls.tail lps' es'
      (by simpa using h1) (by simpa using h2)
    simp [gaeRec, ih.1, ih.2]

/-- Line 82: `torch.max(prob, 1)` on the (batch-1) probability row (`main.py` line
82): the maximal value together with the index of its first occurrence
(ties resolved by the lowest index, as documented for `torch.max`). -/
def torchMax1 : List ℚ → ℚ × Nat
  | [] => (0, 0)
  | [x] => (x, 0)
  | x :: y :: xs =>
    let m := torchMax1 (y :: xs)
    if x < m.1 then (m.1, m.2 + 1) else (x, 0)

/-- The greedy (evaluation-mode) branch of lines 82–83:
`prob, action = torch.max(prob, 1); logp = prob.log()`.  Returns the action
index and the recorded log-probability. -/
def greedySelect (flog : ℚ → ℚ) (prob : List ℚ) : Nat × ℚ :=
  ((torchMax1 prob).2, flog (torchMax1 prob).1)

/-- Lines 75 and 80: `torch.distributions.Categorical(probs).log_prob(a)`;
the constructor normalizes `probs` by its sum, so the log-probability of
action `a` is `log (probs[a] / probs.sum())`. -/
def categoricalLogProb (flog : ℚ → ℚ) (prob : List ℚ) (a : Nat) : ℚ :=
  flog (prob.getD a 0 / prob.sum)

lemma torchMax1_getD :
    ∀ (p : List ℚ), p ≠ [] → p.getD (torchMax1 p).2 0 = (torchMax1 p).1
  | [], h => absurd rfl h
  | [x], _ => rfl
  | x :: y :: xs, _ => by
    have ih := torchMax1_getD (y :: xs) (by simp)
    simp only [torchMax1]
    split
    · simpa using ih
    · rfl

lemma torchMax1_le :
    ∀ (p : List ℚ), ∀ x ∈ p, x ≤ (torchMax1 p).1
  | [], x, hx => absurd hx (List.not_mem_nil x)
  | [a], x, hx => by
    simp at hx
    simp [torchMax1, hx]
  | a :: b :: xs, x, hx => by
    have ih := torchMax1_le (b :: xs)
    simp only [torchMax1]
    rcases List.mem_cons.mp hx with rfl | hx'
    · split
      · next hlt => exact le_of_lt hlt
      · exact le_refl x
    · split
      · exact ih x hx'
      · next hge => exact le_trans (ih x hx') (le_of_not_lt hge)

lemma torchMax1_first :
    ∀ (p : List ℚ), ∀ j < (torchMax1 p).2, p.getD j 0 < (torchMax1 p).1
  | [], j, hj => by simp [torchMax1] at hj
  | [x], j, hj => by simp [torchMax1] at hj
  | x :: y :: xs, j, hj => by
    have ih := torchMax1_first (y :: xs)
    by_cases hx : x < (torchMax1 (y :: xs)).1
    · simp only [torchMax1, if_pos hx] at hj ⊢
      cases j with
      | zero => simpa using hx
      | succ k => simpa using ih k (by omega)
    · simp only [torchMax1, if_neg hx] at hj
      omega

/-- The sum of the softmax vector is `exp`-sum over `exp`-sum, hence `1`
whenever that denominator is nonzero. -/
lemma softmaxQ_sum (fexp : ℚ → ℚ) (l : List ℚ)
    (h : (l.map fexp).sum ≠ 0) : (softmaxQ fexp l).sum = 1 := by
  have key : ∀ (xs : List ℚ) (S : ℚ),
      (xs.map (fun x => fexp x / S)).sum = (xs.map fexp).sum / S := by
    intro xs S
    induction xs with
    | nil => simp
    | cons a t iht => simp [iht, add_div]
  rw [softmaxQ, key, div_self h]

/-- Adding a length-matched list of zeros is the identity (the all-ones mask
contributes `log 1 = 0` to each logit). -/
lemma zipWith_add_zeros :
    ∀ (l : List ℚ) (n : Nat), l.length = n →
      List.zipWith (· + ·) l (List.replicate n (0 : ℚ)) = l
  | [], _, h => by simp
  | x :: xs, n, h => by
    cases n with
    | zero => simp at h
    | succ m =>
      simp only [List.replicate, List.zipWith_cons_cons, add_zero]
      rw [zipWith_add_zeros xs m (by simpa using h)]

/-- C1: for a trajectory with `T` rewards and `T+1` values (after the
bootstrap append), the backward loop of `train` computes, for `i` from `T-1`
down to `0`, the return `R_i = reward[i] + gamma * R_{i+1}` with `R_T = 0`
on natural termination and `R_T = bv` (the detached fresh critic value of the
final observation) on truncation; `value_loss[i] = 0.5 * (R_i - value[i])^2`;
`delta_i = reward[i] + gamma * value[i+1] - value[i]`,
`gae_i = gamma * gae_lambda * gae_{i+1} + delta_i` with `gae_T = 0`; and
`policy_loss[i] = -log_prob[i] * gae_i - entropy_coef * entropy[i]` — the
spec-side sequences `specR`, `specGae`, `specPLs`, `specVLs` are these
recurrences verbatim.  The scalar `reward[i]` consumed by the loop is
`rewards[i][0]` (see C2). -/
theorem claim1_estimator_recurrences (gamma lam c bv : ℚ) (done : Bool)
    (values : List ℚ) (rewards : List (List ℚ)) (logProbs entropies : List ℚ)
    (h1 : rewards.length = logProbs.length)
    (h2 : rewards.length = entropies.length)
    (h3 : values.length = rewards.length) :
    computeLosses gamma lam c done bv values rewards logProbs entropies =
      (specR gamma (if done then 0 else bv) (rewards.map List.headI),
       specGae gamma lam (rewards.map List.headI)
         (values ++ [if done then 0 else bv]),
       specPLs gamma lam c (rewards.map List.headI)
         (values ++ [if done then 0 else bv]) logProbs entropies,
       specVLs gamma (if done then 0 else bv) (rewards.map List.headI)
         (values ++ [if done then 0 else bv])) := by
  rw [computeLosses,
    gaeRec_eq gamma lam c rewards _ logProbs entropies h1 h2 (by simp [h3]),
    lastD_append_single]

/-- Witness for C1 at a concrete length-2 trajectory. -/
theorem claim1_estimator_recurrences_witness :
    ([[(1 : ℚ)], [2]].length = [(3 : ℚ), 4].length ∧
     [[(1 : ℚ)], [2]].length = [(5 : ℚ), 6].length ∧
     [(1 : ℚ), 2].length = [[(1 : ℚ)], [2]].length) ∧
    computeLosses (1/2) (1/3) 2 false 5 [1, 2] [[1], [2]] [3, 4] [5, 6] =
      (specR (1/2) (if false then 0 else 5) ([[(1 : ℚ)], [2]].map List.headI),
       specGae (1/2) (1/3) ([[(1 : ℚ)], [2]].map List.headI)
         ([(1 : ℚ), 2] ++ [if false then 0 else 5]),
       specPLs (1/2) (1/3) 2 ([[(1 : ℚ)], [2]].map List.headI)
         ([(1 : ℚ), 2] ++ [if false then 0 else 5]) [3, 4] [5, 6],
       specVLs (1/2) (if false then 0 else 5) ([[(1 : ℚ)], [2]].map List.headI)
         ([(1 : ℚ), 2] ++ [if false then 0 else 5])) :=
  ⟨⟨rfl, rfl, rfl⟩,
    claim1_estimator_recurrences (1/2) (1/3) 2 5 false [1, 2] [[1], [2]]
      [3, 4] [5, 6] rfl rfl rfl⟩

/-- Counterexample to C2: two environments whose `step` returns different
reward objects (`[2, 5]` vs `[2, 7]`, differing in their second component)
produce trajectories whose appended rewards differ, yet the whole training
computation (returns, GAE, both loss arrays) is identical — the return
recursion does not consume the reward value returned by `step` itself, only
its first component `rewards[i][0]` (`main.py` line 116,
`# using time only`).  In particular the reward is not a scalar float: a
scalar would not be subscriptable. -/
def ctxC2a : RolloutCtx :=
  ⟨1, id, id, fun _ => [0], fun _ => 0, fun _ p => (0, p.headI),
    fun _ _ => ([2, 5], true)⟩

def ctxC2b : RolloutCtx :=
  ⟨1, id, id, fun _ => [0], fun _ => 0, fun _ p => (0, p.headI),
    fun _ _ => ([2, 7], true)⟩

/-- C2 counterexample (see `ctxC2a`, `ctxC2b`): appended rewards differ but
the computed losses coincide, so the recursion does not consume the reward
value itself. -/
theorem claim2_counterexample :
    (ctxC2a.envStep 0 0).1 ≠ (ctxC2b.envStep 0 0).1 ∧
    (rollout ctxC2a 1).rewards = [[2, 5]] ∧
    (rollout ctxC2b 1).rewards = [[2, 7]] ∧
    trainStepResult ctxC2a 1 1 1 0 = trainStepResult ctxC2b 1 1 1 0 :=
  ⟨by decide, rfl, rfl, rfl⟩

/-- C2 (amended): the rollout appends to the trajectory exactly the
(multi-component) reward objects returned by the Environment's step
operation, and the return recursion `R = gamma * R + reward` consumes, for
step `i`, the first component `rewards[i][0]` of that object. -/
theorem claim2_amended (ctx : RolloutCtx) (m : Nat) (gamma lam c : ℚ)
    (rws : List (List ℚ)) (vls lps es : List ℚ)
    (h1 : rws.length = lps.length) (h2 : rws.length = es.length)
    (h3 : vls.length = rws.length + 1) :
    (rollout ctx m).rewards = pathRewards ctx m 0 ∧
    (gaeRec gamma lam c rws vls lps es).1 =
      specR gamma (lastD vls 0) (rws.map List.headI) := by
  constructor
  · exact rolloutLoop_pathRewards ctx m 0 (initState ctx) rfl
  · rw [gaeRec_eq gamma lam c rws vls lps es h1 h2 h3]

/-- Witness for C2 (amended) at a concrete one-step episode. -/
theorem claim2_amended_witness :
    ([[(2 : ℚ), 5]].length = [(1 : ℚ)].length ∧
     [[(2 : ℚ), 5]].length = [(0 : ℚ)].length ∧
     [(0 : ℚ), 0].length = [[(2 : ℚ), 5]].length + 1) ∧
    (rollout ctxC2a 1).rewards = pathRewards ctxC2a 1 0 ∧
    (gaeRec 1 1 0 [[2, 5]] [0, 0] [1] [0]).1 =
      specR 1 (lastD [(0 : ℚ), 0] 0) ([[(2 : ℚ), 5]].map List.headI) :=
  ⟨⟨rfl, rfl, rfl⟩,
    claim2_amended ctxC2a 1 1 1 0 [[2, 5]] [0, 0] [1] [0] rfl rfl rfl⟩

/-- C3: for every rollout the four trajectory lists have equal length, so
after the bootstrap append `len(values) == len(rewards) + 1`, and the
backward loop produces exactly one policy-loss and one value-loss entry per
reward. -/
theorem claim3_lengths (ctx : RolloutCtx) (m : Nat) (gamma lam c : ℚ)
    (done : Bool) (bv : ℚ) :
    (rollout ctx m).values.length = (rollout ctx m).rewards.length ∧
    ((rollout ctx m).values ++ [if done then 0 else bv]).length
        = (rollout ctx m).rewards.length + 1 ∧
    (computeLosses gamma lam c done bv (rollout ctx m).values
        (rollout ctx m).rewards (rollout ctx m).logProbs
        (rollout ctx m).entropies).2.2.1.length
        = (rollout ctx m).rewards.length ∧
    (computeLosses gamma lam c done bv (rollout ctx m).values
        (rollout ctx m).rewards (rollout ctx m).logProbs
        (rollout ctx m).entropies).2.2.2.length
        = (rollout ctx m).rewards.length := by
  have hl := rolloutLoop_lens ctx m 0 (initState ctx) rfl rfl rfl
  simp only [rollout]
  have hlen := gaeRec_len gamma lam c
    (rolloutLoop ctx m 0 (initState ctx)).rewards
    ((rolloutLoop ctx m 0 (initState ctx)).values ++ [if done then 0 else bv])
    (rolloutLoop ctx m 0 (initState ctx)).logProbs
    (rolloutLoop ctx m 0 (initState ctx)).entropies
    hl.2.1.symm hl.2.2.symm
  refine ⟨hl.1, by simp [hl.1], ?_, ?_⟩
  · rw [computeLosses]; exact hlen.1
  · rw [computeLosses]; exact hlen.2

/-- C4: the rollout loop runs at most `max_step` iterations (at most
`max_step` trajectory records), and with an environment that never reports
`done` it appends exactly `max_step` records. -/
theorem claim4_truncation (ctx : RolloutCtx) (m : Nat) :
    (rollout ctx m).rewards.length ≤ m ∧
    ((∀ t a, (ctx.envStep t a).2 = false) →
      (rollout ctx m).rewards.length = m) := by
  constructor
  · have := rolloutLoop_rewards_le ctx m 0 (initState ctx)
    simpa [rollout, initState] using this
  · intro h
    have := rolloutLoop_rewards_eq ctx h m 0 (initState ctx)
    simpa [rollout, initState] using this

def ctxC4 : RolloutCtx :=
  ⟨2, id, id, fun _ => [0, 0], fun _ => 0, fun _ _ => (0, 0),
    fun _ _ => ([0], false)⟩

/-- Witness for C4: an always-`done=False` environment with `max_step = 5`
yields a trajectory of length exactly 5. -/
theorem claim4_truncation_witness :
    (∀ t a, (ctxC4.envStep t a).2 = false) ∧
    (rollout ctxC4 5).rewards.length = 5 :=
  ⟨fun _ _ => rfl, (claim4_truncation ctxC4 5).2 (fun _ _ => rfl)⟩

lemma specGae_telescope :
    ∀ (rs vs : List ℚ), (∀ r ∈ rs, r = 0) → vs.length = rs.length + 1 →
      specGae 1 1 rs vs = lastD vs 0 - vs.headI
  | [], vs, _, hlen => by
    obtain ⟨v, rfl⟩ : ∃ v, vs = [v] := by
      cases vs with
      | nil => simp at hlen
      | cons v t => cases t with
        | nil => exact ⟨v, rfl⟩
        | cons _ _ => simp at hlen
    simp [specGae, lastD]
  | r :: rs, vs, hr, hlen => by
    obtain ⟨v, vs', rfl⟩ : ∃ v vs', vs = v :: vs' := by
      cases vs with
      | nil => simp at hlen
      | cons a b => exact ⟨a, b, rfl⟩
    have hne : vs' ≠ [] := by
      intro h; rw [h] at hlen; simp at hlen
    have ih := specGae_telescope rs vs'
      (fun x hx => hr x (List.mem_cons_of_mem r hx)) (by simpa using hlen)
    have hr0 : r = 0 := hr r (List.mem_cons_self r rs)
    simp only [specGae, List.tail_cons, ih, List.headI, hr0,
      lastD_cons_of_ne_nil v 0 vs' hne]
    ring

lemma lastD_drop {α : Type} (d : α) :
    ∀ (l : List α) (i : Nat), i < l.length → lastD (l.drop i) d = lastD l d
  | l, 0, _ => rfl
  | [], i + 1, h => by simp at h
  | x :: xs, i + 1, h => by
    have hxs : xs ≠ [] := by
      intro hn; rw [hn] at h; simp at h
    rw [List.drop_succ_cons, lastD_drop d xs i (by simpa using h),
      lastD_cons_of_ne_nil x d xs hxs]

lemma headI_drop_getD :
    ∀ (l : List ℚ) (i : Nat), i < l.length → (l.drop i).headI = l.getD i 0
  | [], i, h => by simp at h
  | x :: xs, 0, _ => rfl
  | x :: xs, i + 1, h =>
    headI_drop_getD xs i (by simpa using h)

/-- C5: with all (first-component) rewards zero and
`gamma = gae_lambda = 1`, the GAE accumulator after processing step `i` —
the final `gae` of the backward loop run on the index-`i` suffix of the
trajectory — telescopes to `value[T] - value[i]`. -/
theorem claim5_gae_telescoping (c : ℚ) (rws : List (List ℚ))
    (vls lps es : List ℚ)
    (hr : ∀ r ∈ rws, List.headI r = 0)
    (h1 : rws.length = lps.length) (h2 : rws.length = es.length)
    (h3 : vls.length = rws.length + 1) :
    ∀ i < rws.length,
      (gaeRec 1 1 c (rws.drop i) (vls.drop i) (lps.drop i) (es.drop i)).2.1
        = lastD vls 0 - vls.getD i 0 := by
  intro i hi
  rw [gaeRec_eq 1 1 c (rws.drop i) (vls.drop i) (lps.drop i) (es.drop i)
    (by simp [h1]) (by simp [h2]) (by simp [h3]; omega)]
  have htel := specGae_telescope ((rws.drop i).map List.headI) (vls.drop i)
    (by
      intro x hx
      obtain ⟨r, hr', rfl⟩ := List.mem_map.mp hx
      exact hr r (List.mem_of_mem_drop hr'))
    (by simp [h3]; omega)
  rw [htel, lastD_drop 0 vls i (by omega),
    headI_drop_getD vls i (by omega)]

/-- Witness for C5: the synthetic length-3 trajectory with zero rewards and
values `[1, 2, 3, 4]` gives GAE accumulators `1, 2, 3` after steps
`2, 1, 0`. -/
theorem claim5_gae_telescoping_witness :
    (∀ r ∈ [[(0 : ℚ)], [0], [0]], List.headI r = 0) ∧
    (gaeRec 1 1 0 (List.drop 2 [[(0 : ℚ)], [0], [0]])
      (List.drop 2 [(1 : ℚ), 2, 3, 4]) (List.drop 2 [(0 : ℚ), 0, 0])
      (List.drop 2 [(0 : ℚ), 0, 0])).2.1 = 1 ∧
    (gaeRec 1 1 0 (List.drop 1 [[(0 : ℚ)], [0], [0]])
      (List.drop 1 [(1 : ℚ), 2, 3, 4]) (List.drop 1 [(0 : ℚ), 0, 0])
      (List.drop 1 [(0 : ℚ), 0, 0])).2.1 = 2 ∧
    (gaeRec 1 1 0 (List.drop 0 [[(0 : ℚ)], [0], [0]])
      (List.drop 0 [(1 : ℚ), 2, 3, 4]) (List.drop 0 [(0 : ℚ), 0, 0])
      (List.drop 0 [(0 : ℚ), 0, 0])).2.1 = 3 := by
  have h := claim5_gae_telescoping 0 [[0], [0], [0]] [1, 2, 3, 4] [0, 0, 0]
    [0, 0, 0] (by decide) rfl rfl rfl
  refine ⟨by decide, ?_, ?_, ?_⟩
  · rw [h 2 (by decide)]; norm_num [lastD]
  · rw [h 1 (by decide)]; norm_num [lastD]
  · rw [h 0 (by decide)]; norm_num [lastD]

/-- C6: in evaluation (greedy) mode the selected action is an index of
maximal probability, with ties resolved by the first (lowest) index — the
probability at the selected index is the maximum, every probability is at
most the maximum, and every strictly earlier index carries a strictly
smaller probability; the recorded log-probability is the log of that
maximal probability; and on the distribution `[0.2, 0.5, 0.3]` the selected
index is `1` with log-probability `log 0.5`. -/
theorem claim6_greedy_argmax (flog : ℚ → ℚ) (p : List ℚ) (h : p ≠ []) :
    p.getD (greedySelect flog p).1 0 = (torchMax1 p).1 ∧
    (∀ x ∈ p, x ≤ (torchMax1 p).1) ∧
    (∀ j < (greedySelect flog p).1, p.getD j 0 < (torchMax1 p).1) ∧
    (greedySelect flog p).2 = flog (torchMax1 p).1 ∧
    greedySelect flog [1/5, 1/2, 3/10] = (1, flog (1/2)) := by
  refine ⟨torchMax1_getD p h, torchMax1_le p, torchMax1_first p, rfl, ?_⟩
  have h1 : torchMax1 [(3 : ℚ)/10] = (3/10, 0) := rfl
  have h2 : torchMax1 [(1 : ℚ)/2, 3/10] = (1/2, 0) := by
    rw [torchMax1, h1]
    norm_num
  have hc : torchMax1 [(1 : ℚ)/5, 1/2, 3/10] = (1/2, 1) := by
    rw [torchMax1, h2]
    norm_num
  rw [greedySelect, hc]

/-- Witness for C6 on the distribution `[0.2, 0.5, 0.3]`. -/
theorem claim6_greedy_argmax_witness :
    ([(1 : ℚ)/5, 1/2, 3/10] ≠ []) ∧
    greedySelect id [1/5, 1/2, 3/10] = (1, id ((1 : ℚ)/2)) :=
  ⟨by decide, (claim6_greedy_argmax id [1/5, 1/2, 3/10] (by decide)).2.2.2.2⟩

/-- C7: on any probability vector produced by the masked softmax (whose
entries sum to `1` as long as the `exp`-sum denominator is nonzero), the
categorical distribution's log-probability of an arg-max action equals the
greedy branch's recorded `log(max prob)` — the two variants agree whenever
they select a maximal-probability action. -/
theorem claim7_greedy_logprob_consistent (fexp flog : ℚ → ℚ) (l : List ℚ)
    (hS : (l.map fexp).sum ≠ 0) (a : Nat)
    (ha : (softmaxQ fexp l).getD a 0 = (torchMax1 (softmaxQ fexp l)).1) :
    categoricalLogProb flog (softmaxQ fexp l) a
      = (greedySelect flog (softmaxQ fexp l)).2 := by
  rw [categoricalLogProb, softmaxQ_sum fexp l hS, div_one, ha]
  rfl

/-- Witness for C7 on the two-logit vector `[0, 0]` with constant `exp`. -/
theorem claim7_greedy_logprob_consistent_witness :
    (([(0 : ℚ), 0].map (fun _ => (1 : ℚ))).sum ≠ 0) ∧
    ((softmaxQ (fun _ => (1 : ℚ)) [0, 0]).getD 0 0
        = (torchMax1 (softmaxQ (fun _ => (1 : ℚ)) [0, 0])).1) ∧
    categoricalLogProb id (softmaxQ (fun _ => (1 : ℚ)) [0, 0]) 0
      = (greedySelect id (softmaxQ (fun _ => (1 : ℚ)) [0, 0])).2 := by
  have hsum : ([(0 : ℚ), 0].map (fun _ => (1 : ℚ))).sum ≠ 0 := by norm_num
  have hsm : softmaxQ (fun _ => (1 : ℚ)) [0, 0] = [1/2, 1/2] := by
    rw [softmaxQ]
    norm_num
  have ha : (softmaxQ (fun _ => (1 : ℚ)) [0, 0]).getD 0 0
      = (torchMax1 (softmaxQ (fun _ => (1 : ℚ)) [0, 0])).1 := by
    rw [hsm]
    norm_num [torchMax1]
  exact ⟨hsum, ha,
    claim7_greedy_logprob_consistent (fun _ => 1) id [0, 0] hsum 0 ha⟩

/-- C8: the action mask is initialized to all-ones over the action space and
is never modified by any loop iteration (the dynamic re-selection mask of
lines 85/87 is commented out); since `log 1 = 0`, the additive log-mask
contributes zero to every logit, and the probabilities, log-probabilities
and entropy equal those of the unmasked logits. -/
theorem claim8_static_allow_mask (ctx : RolloutCtx) (m fuel t : Nat)
    (st : LoopState) (l : List ℚ)
    (hlog : ctx.flog 1 = 0) (hl : l.length = ctx.nActions) :
    (rolloutLoop ctx fuel t st).mask = st.mask ∧
    (rollout ctx m).mask = List.replicate ctx.nActions 1 ∧
    maskedLogit ctx.flog l (List.replicate ctx.nActions 1) = l ∧
    softmaxQ ctx.fexp (maskedLogit ctx.flog l (List.replicate ctx.nActions 1))
        = softmaxQ ctx.fexp l ∧
    logSoftmaxQ ctx.fexp ctx.flog
        (maskedLogit ctx.flog l (List.replicate ctx.nActions 1))
        = logSoftmaxQ ctx.fexp ctx.flog l ∧
    entropyQ ctx.fexp ctx.flog
        (maskedLogit ctx.flog l (List.replicate ctx.nActions 1))
        = entropyQ ctx.fexp ctx.flog l := by
  have hmask : maskedLogit ctx.flog l (List.replicate ctx.nActions 1) = l := by
    rw [maskedLogit, List.map_replicate, hlog]
    exact zipWith_add_zeros l ctx.nActions hl
  refine ⟨rolloutLoop_mask ctx fuel t st, ?_, hmask, by rw [hmask],
    by rw [hmask], by rw [hmask]⟩
  rw [rollout, rolloutLoop_mask]
  rfl

def ctxC8 : RolloutCtx :=
  ⟨2, id, fun x => x - 1, fun _ => [3, 4], fun _ => 0, fun _ _ => (0, 0),
    fun _ _ => ([0], true)⟩

/-- Witness for C8 with a log function satisfying `log 1 = 0`. -/
theorem claim8_static_allow_mask_witness :
    (ctxC8.flog 1 = 0 ∧ ([(3 : ℚ), 4]).length = ctxC8.nActions) ∧
    maskedLogit ctxC8.flog [3, 4] (List.replicate ctxC8.nActions 1) = [3, 4] := by
  have hlog : ctxC8.flog 1 = 0 := by
    show (1 : ℚ) - 1 = 0
    norm_num
  exact ⟨⟨hlog, rfl⟩,
    (claim8_static_allow_mask ctxC8 0 0 0 (initState ctxC8) [3, 4]
      hlog rfl).2.2.1⟩

/-- C9: over one training example, `env.close()` is invoked exactly once
when the episode terminates naturally (the `done` local ends `true`) and
never when truncated at `max_step`; the two episode metrics are each read
exactly once, and only after the rollout loop has exited (the loop portion
of the trace contains no metric reads). -/
theorem claim9_close_and_metrics (ctx : RolloutCtx) (m : Nat) :
    (exampleEvents ctx m).count Ev.closeCall
        = (if (rollout ctx m).doneVar = some true then 1 else 0) ∧
    (exampleEvents ctx m).count Ev.lifetimeCall = 1 ∧
    (exampleEvents ctx m).count Ev.travelDistCall = 1 ∧
    (rollout ctx m).events.count Ev.lifetimeCall = 0 ∧
    (rollout ctx m).events.count Ev.travelDistCall = 0 := by
  have h0 : (initState ctx).events = [] := rfl
  have hclose := rolloutLoop_close_count ctx m 0 (initState ctx)
    (by simp [initState])
  have hlife := rolloutLoop_other_count ctx Ev.lifetimeCall (by decide)
    (by decide) m 0 (initState ctx)
  have htrav := rolloutLoop_other_count ctx Ev.travelDistCall (by decide)
    (by decide) m 0 (initState ctx)
  rw [h0] at hclose hlife htrav
  simp only [List.count_nil, Nat.zero_add] at hclose hlife htrav
  have hc2 : List.count Ev.closeCall [Ev.lifetimeCall, Ev.travelDistCall] = 0 :=
    by decide
  have hl2 : List.count Ev.lifetimeCall [Ev.lifetimeCall, Ev.travelDistCall] = 1 :=
    by decide
  have ht2 : List.count Ev.travelDistCall [Ev.lifetimeCall, Ev.travelDistCall] = 1 :=
    by decide
  simp only [exampleEvents, rollout, List.count_append]
  refine ⟨?_, ?_, ?_, hlife, htrav⟩
  · rw [hclose, hc2, Nat.add_zero]
  · rw [hlife, hl2]
  · rw [htrav, ht2]

/-- C10: with `max_step = 0` the rollout loop body never runs (empty
trajectory and empty trace) and the post-loop `if not done:` of line 105
reads the never-assigned local `done`, so the training step fails with an
unbound-local error instead of producing a result; with `max_step ≥ 1` the
step succeeds, so `max_step ≥ 1` is a precondition for well-definedness. -/
theorem claim10_max_step_zero (ctx : RolloutCtx) (gamma lam c : ℚ) (m : Nat)
    (hm : 1 ≤ m) :
    (rollout ctx 0).rewards = [] ∧
    (rollout ctx 0).events = [] ∧
    trainStepResult ctx 0 gamma lam c = .error .unboundLocalDone ∧
    resultOk (trainStepResult ctx m gamma lam c) = true := by
  refine ⟨rfl, rfl, rfl, ?_⟩
  have hs := rolloutLoop_done_isSome_of_pos ctx m 0 (initState ctx) hm
  rcases ho : (rollout ctx m).doneVar with _ | d
  · rw [rollout] at ho
    rw [ho] at hs
    simp at hs
  · simp [trainStepResult, ho, resultOk]

def ctxC10 : RolloutCtx :=
  ⟨1, id, id, fun _ => [0], fun _ => 0, fun _ _ => (0, 0),
    fun _ _ => ([0], false)⟩

/-- Witness for C10 at `max_step = 1`. -/
theorem claim10_max_step_zero_witness :
    (1 ≤ 1) ∧
    trainStepResult ctxC10 0 1 1 0 = .error .unboundLocalDone ∧
    resultOk (trainStepResult ctxC10 1 1 1 0) = true :=
  ⟨Nat.le_refl 1,
    (claim10_max_step_zero ctxC10 1 1 0 1 (Nat.le_refl 1)).2.2.1,
    (claim10_max_step_zero ctxC10 1 1 0 1 (Nat.le_refl 1)).2.2.2⟩

end ODMC
